import Mathlib

/-!
Command dispatch bridge of the world server

Shallow embedding of `ACSoap.cpp` (the SOAP adapter: `ACSoapThread`,
`ns1__executeCommand`, `SOAPCommand::commandFinished`) and of
`CliRunnable.cpp` (the console adapter: `CliThread`).

Conventions.
* A C string (`char*`) is a `List Char`: the characters before the
  terminating NUL.  A `std::string` or `std::string_view` is a `List Char`
  too, but may hold NUL characters of its own; `c_str` gives the C string that
  a reader of its buffer sees.
* A nullable `char*` is an `Option CppString`.
* Calls into collaborators that live outside the two files (the account
  manager, the world, gSOAP, the terminal) are either parameters of the
  embedded function or are recorded, in order, in the state it returns.
* What other threads do while a thread of this code is blocked is an explicit
  input: a list of steps.
* The console loop returns an `Option`: `none` stands for undefined behaviour
  (a write past the end of a buffer).
-/

namespace ACore

/-- Text of a C string or of a `std::string`. -/
abbrev CppString := List Char

/-! ## Tasks and sinks -/

/-- The `void*` handed to `CliCommandHolder` as callback argument: either
`nullptr` (console) or the address of the caller's `SOAPCommand`. -/
inductive CallbackArg where
  | null
  | connection
  deriving DecidableEq, Repr

/-- The function pointers that are passed as `Print` sink in the two files. -/
inductive PrintFn where
  | SOAPCommand_print
  | utf8print
  deriving DecidableEq, Repr

/-- The function pointers that are passed as `CommandFinished` sink in the
two files. -/
inductive CommandFinishedFn where
  | SOAPCommand_commandFinished
  | commandFinished
  deriving DecidableEq, Repr

/-- Modelled from the spec: `CliCommandHolder` is declared in a header outside
the two embedded files.  A Command Task bundles the context, the
command text, the output sink and the completion sink, in the order of the
constructor calls `CliCommandHolder(arg, command, print, commandFinished)`. -/
structure CliCommandHolder where
  m_callbackArg : CallbackArg
  m_command : CppString
  m_print : PrintFn
  m_commandFinished : CommandFinishedFn
  deriving DecidableEq, Repr

/-- Modelled from the spec: `SOAPCommand` is declared in `ACSoap.h`, outside
the two embedded files.  It holds the accumulating print buffer, the
success flag and the one-shot rendezvous (`finishedPromise`); `resolved`
records whether the promise has been given its value. -/
structure SOAPCommand where
  m_printBuffer : CppString := []
  m_success : Bool := false
  resolved : Bool := false
  deriving DecidableEq, Repr

/-- Modelled from the spec: the output sink "appends every chunk into an
accumulating buffer" (`SOAPCommand::appendToPrintBuffer`, in `ACSoap.h`). -/
def SOAPCommand.appendToPrintBuffer (con : SOAPCommand) (msg : CppString) : SOAPCommand :=
  { con with m_printBuffer := con.m_printBuffer ++ msg }

/-- Modelled from the spec: the completion sink "stores the success flag and
resolves the rendezvous" (`SOAPCommand::setCommandSuccess`, in `ACSoap.h`). -/
def SOAPCommand.setCommandSuccess (con : SOAPCommand) (val : Bool) : SOAPCommand :=
  { con with m_success := val, resolved := true }

/-- Modelled from the spec: the stored success flag
(`SOAPCommand::hasCommandSucceeded`, in `ACSoap.h`). -/
def SOAPCommand.hasCommandSucceeded (con : SOAPCommand) : Bool :=
  con.m_success

/-- Modelled from the spec: `SOAPCommand::print` (in `ACSoap.h`) is the output
sink of the SOAP adapter; it appends the chunk to the connection it is given
as callback argument. -/
def SOAPCommand.print (soapconnection : SOAPCommand) (msg : CppString) : SOAPCommand :=
  soapconnection.appendToPrintBuffer msg

/-- `SOAPCommand::commandFinished` (ACSoap.cpp:136-140). -/
def SOAPCommand.commandFinished (soapconnection : SOAPCommand) (success : Bool) : SOAPCommand :=
  soapconnection.setCommandSuccess success

/-! ## The world, seen from a producer thread -/

/-- Modelled from the spec: the process stop signal of `World` (declared in
`World.h`, outside the two embedded files): "a process-wide boolean, set once
by any component requesting shutdown", together with the exit code that the
request carries. -/
structure World where
  m_stopEvent : Bool := false
  m_ExitCode : Nat := 0
  deriving DecidableEq, Repr

/-- Modelled from the spec: `World::IsStopped` reads the stop signal. -/
def World.IsStopped (w : World) : Bool := w.m_stopEvent

/-- Modelled from the spec: `World::StopNow` sets the stop signal and stores
the exit code. -/
def World.StopNow (_w : World) (exitcode : Nat) : World :=
  { m_stopEvent := true, m_ExitCode := exitcode }

/-- The stop signal as raised by another thread; `raised = false` leaves the
world as it is. -/
def World.raisedElsewhere (w : World) (raised : Bool) : World :=
  { w with m_stopEvent := w.m_stopEvent || raised }

/-- One thing that happens in the rest of the process while the SOAP caller
is blocked on its rendezvous.  `print` and `finished` are the world thread
invoking the two sinks of the queued task with the task's callback argument;
`stopSignal` is the process stop signal being set; `idle` is anything else. -/
inductive WorldStep where
  | print (msg : CppString)
  | finished (success : Bool)
  | stopSignal
  | idle
  deriving DecidableEq, Repr

/-- Invoking the output sink of a task on the waiting connection.  Only
`SOAPCommand::print` called with the connection as argument touches it. -/
def CliCommandHolder.invokePrint (cmd : CliCommandHolder) (msg : CppString)
    (connection : SOAPCommand) : SOAPCommand :=
  match cmd.m_print, cmd.m_callbackArg with
  | .SOAPCommand_print, .connection => SOAPCommand.print connection msg
  | _, _ => connection

/-- Invoking the completion sink of a task on the waiting connection. -/
def CliCommandHolder.invokeCommandFinished (cmd : CliCommandHolder) (success : Bool)
    (connection : SOAPCommand) : SOAPCommand :=
  match cmd.m_commandFinished, cmd.m_callbackArg with
  | .SOAPCommand_commandFinished, .connection => SOAPCommand.commandFinished connection success
  | _, _ => connection

/-- The blocking wait `connection.finishedPromise.get_future().wait()`
(ACSoap.cpp:123) against the steps of the rest of the process, listed in
full.  The wait ends at the first step that resolves the promise and yields
the connection as it is then; `none` means that the listed steps never
resolve the promise, so the caller stays blocked. -/
def waitFinished (cmd : CliCommandHolder) : List WorldStep → SOAPCommand → Option SOAPCommand
  | [], _ => none
  | WorldStep.print msg :: rest, connection =>
      waitFinished cmd rest (cmd.invokePrint msg connection)
  | WorldStep.finished success :: rest, connection =>
      let connection := cmd.invokeCommandFinished success connection
      if connection.resolved then some connection else waitFinished cmd rest connection
  | WorldStep.stopSignal :: rest, connection => waitFinished cmd rest connection
  | WorldStep.idle :: rest, connection => waitFinished cmd rest connection

/-! ## `ns1__executeCommand` -/

/-- The two credential fields of `struct soap` that the handler reads. -/
structure Soap where
  userid : Option CppString
  passwd : Option CppString
  deriving DecidableEq, Repr

/-- The account collaborator (`AccountMgr`, outside the two files). -/
structure AccountMgr where
  GetId : CppString → Nat
  CheckPassword : Nat → CppString → Bool
  GetSecurity : Nat → Nat

/-- A query sent to the account collaborator. -/
inductive AccountQuery where
  | GetId (username : CppString)
  | CheckPassword (accountId : Nat) (passwd : CppString)
  | GetSecurity (accountId : Nat)
  deriving DecidableEq, Repr

/-- A SOAP fault as recorded in the `soap` context: whether it is a sender
fault, the fault string and the fault detail. -/
structure SoapFault where
  sender : Bool
  faultstring : CppString
  detail : CppString
  deriving DecidableEq, Repr

/-- The gSOAP status for success (`stdsoap2.h`). -/
def SOAP_OK : Nat := 0

/-- The gSOAP status that reports a fault (`stdsoap2.h`). -/
def SOAP_FAULT : Nat := 12

/-- What a call of `ns1__executeCommand` has done when it is observed.
`ret = none` means that the calling thread is blocked on the rendezvous and
has not returned. -/
structure ExecResult where
  ret : Option Nat
  result : Option CppString := none
  fault : Option SoapFault := none
  queued : List CliCommandHolder := []
  queries : List AccountQuery := []
  waited : Bool := false
  deriving DecidableEq, Repr

/-- The NUL character, which terminates a C string. -/
def NUL : Char := Char.ofNat 0

/-- `std::string::c_str()` as the C string that the callee reads from it: the
text before the first NUL. -/
def c_str (s : CppString) : CppString := s.takeWhile (fun c => c != NUL)

/-- Modelled from the spec: `soap_strdup` belongs to gSOAP, outside the two
embedded files.  It returns a copy of the C string it is given. -/
def soap_strdup (s : CppString) : CppString := s

/-- Modelled from the spec: `soap_sender_fault` belongs to gSOAP, outside the
two embedded files.  It records a sender fault carrying the two texts
in the `soap` context and returns the fault status, "a transport-fault
carrying `result`". -/
def soap_sender_fault (r : ExecResult) (faultstring detail : CppString) : ExecResult :=
  { r with ret := some SOAP_FAULT, fault := some ⟨true, faultstring, detail⟩ }

/-- The handler `ns1__executeCommand(soap, command, result)`
(ACSoap.cpp:81-134).  `world` lists what the rest of the process does after
the task has been queued. -/
def ns1__executeCommand (acc : AccountMgr) (SEC_ADMINISTRATOR : Nat) (soap : Soap)
    (command : Option CppString) (world : List WorldStep) : ExecResult :=
  -- security check
  match soap.userid, soap.passwd with
  | none, _ => { ret := some 401 }
  | some _, none => { ret := some 401 }
  | some userid, some passwd =>
    let accountId := acc.GetId userid
    let q1 := [AccountQuery.GetId userid]
    if accountId = 0 then
      { ret := some 401, queries := q1 }
    else
      let q2 := q1 ++ [AccountQuery.CheckPassword accountId passwd]
      if !acc.CheckPassword accountId passwd then
        { ret := some 401, queries := q2 }
      else
        let q3 := q2 ++ [AccountQuery.GetSecurity accountId]
        if acc.GetSecurity accountId < SEC_ADMINISTRATOR then
          { ret := some 403, queries := q3 }
        else
          match command with
          | none =>
            soap_sender_fault { ret := none, queries := q3 }
              "Command can not be empty".toList "The supplied command was an empty string".toList
          | some [] =>
            soap_sender_fault { ret := none, queries := q3 }
              "Command can not be empty".toList "The supplied command was an empty string".toList
          | some (c :: cs) =>
            let connection : SOAPCommand := {}
            -- commands are executed in the world thread
            let cmd : CliCommandHolder :=
              ⟨CallbackArg.connection, c :: cs, PrintFn.SOAPCommand_print,
                CommandFinishedFn.SOAPCommand_commandFinished⟩
            let queued := [cmd]
            -- wait until the command has finished executing
            match waitFinished cmd world connection with
            | none => { ret := none, queued := queued, queries := q3, waited := true }
            | some connection =>
              let printBuffer := soap_strdup (c_str connection.m_printBuffer)
              if connection.hasCommandSucceeded then
                { ret := some SOAP_OK, result := some printBuffer, queued := queued,
                  queries := q3, waited := true }
              else
                soap_sender_fault { ret := none, queued := queued, queries := q3, waited := true }
                  printBuffer printBuffer

/-! ## `ACSoapThread` -/

/-- One pass through the accept loop as the environment decides it: the
socket that `soap_accept` yields (`none` for an invalid socket, which is an
accept timeout; `some c` for the accepted connection `c`) and whether another
thread raises the stop signal before the loop condition is evaluated again. -/
structure AcceptOutcome where
  socket : Option Nat
  stopRaised : Bool
  deriving DecidableEq, Repr

/-- State of the SOAP listener thread: the world, the number of calls of
`soap_accept`, the connections handed to `process_message` (in order) and the
exit codes this thread has passed to `World::StopNow`. -/
structure SoapThreadState where
  world : World := {}
  accepts : Nat := 0
  processed : List Nat := []
  stopRequests : List Nat := []
  deriving DecidableEq, Repr

/-- `process_message` (ACSoap.cpp:67-75): serves the copied connection once
and releases it. -/
def process_message (soap_message : Nat) (s : SoapThreadState) : SoapThreadState :=
  { s with processed := s.processed ++ [soap_message] }

/-- The loop `while (!World::IsStopped())` of `ACSoapThread`
(ACSoap.cpp:49-58).  The list gives the passes the environment offers; the
loop stops consuming them once it finds the world stopped. -/
def ACSoapThread.loop : List AcceptOutcome → SoapThreadState → SoapThreadState
  | [], s => s
  | a :: rest, s =>
    if s.world.IsStopped then s
    else
      let s := { s with accepts := s.accepts + 1,
                        world := s.world.raisedElsewhere a.stopRaised }
      match a.socket with
      | none => ACSoapThread.loop rest s      -- ran into an accept timeout
      | some thread_soap => ACSoapThread.loop rest (process_message thread_soap s)

/-- `ACSoapThread(host, port)` (ACSoap.cpp:24-65).  `soap_bind` tells whether
binding the listening socket to `host:port` yields a valid socket. -/
def ACSoapThread (soap_bind : CppString → Nat → Bool) (ERROR_EXIT_CODE : Nat)
    (host : CppString) (port : Nat) (accepts : List AcceptOutcome)
    (s : SoapThreadState) : SoapThreadState :=
  if !soap_bind host port then
    { s with world := s.world.StopNow ERROR_EXIT_CODE,
             stopRequests := s.stopRequests ++ [ERROR_EXIT_CODE] }
  else
    ACSoapThread.loop accepts s

/-! ## `CliThread` -/

/-- Carriage return. -/
def CR : Char := Char.ofNat 13

/-- Line feed. -/
def LF : Char := Char.ofNat 10

/-- `std::string::find_first_of(chars)`: index of the first character of `s`
that occurs in `chars`; `none` stands for `npos`. -/
def find_first_of : CppString → List Char → Option Nat
  | [], _ => none
  | c :: cs, chars =>
    if c ∈ chars then some 0 else (find_first_of cs chars).map Nat.succ

/-- `std::string::erase(index)`: drops everything from `index` on. -/
def erase (s : CppString) (index : Nat) : CppString := s.take index

/-- What the console thread shows or does on the terminal. -/
inductive ConsoleEvent where
  | bell
  | prompt
  | readCall
  deriving DecidableEq, Repr

/-- One read of the console as the environment decides it.
* `line`: the characters that the read call stores in its buffer before the
  terminating NUL it appends; `none` when it yields no buffer (`readline`
  returns `nullptr`, `fgetws` fails).  The program sees the text before the
  first NUL of the buffer.
* `convOk`: whether `WStrToUtf8` succeeds on the buffer (Windows only; on
  success the command is the text of the buffer).
* `eof`: the value of `feof(stdin)` after the read.  `fgetws` reads through
  the stdio stream and sets its end-of-file indicator at end of input;
  `readline` reads the descriptor itself and leaves the indicator of `stdin`
  unset.
* `stopRaised`: whether another thread raises the stop signal while the read
  is pending. -/
structure ReadOutcome where
  line : Option CppString
  convOk : Bool := true
  eof : Bool := false
  stopRaised : Bool := false
  deriving DecidableEq, Repr

/-- State of the console thread: the world, the tasks handed to
`QueueCliCommand` (in order), the terminal events, the readline history and
the exit codes this thread has passed to `World::StopNow`. -/
structure CliState where
  world : World := {}
  queue : List CliCommandHolder := []
  console : List ConsoleEvent := []
  history : List CppString := []
  stopRequests : List Nat := []
  deriving DecidableEq, Repr

/-- `PrintCliPrefix` (CliRunnable.cpp:38-41). -/
def PrintCliPrefix (s : CliState) : CliState :=
  { s with console := s.console ++ [ConsoleEvent.prompt] }

/-- Number of `wchar_t` (UTF-16 units on Windows) that a text takes in a wide
buffer. -/
def wideLength (l : CppString) : Nat :=
  (l.map (fun c => if c.toNat < 65536 then 1 else 2)).sum

/-- Number of elements of `wchar_t commandbuf[256]` (CliRunnable.cpp:148). -/
def commandbufLength : Nat := 256

/-- Whether the read writes past its buffer.  On Windows the call is
`fgetws(commandbuf, sizeof(commandbuf), stdin)` (CliRunnable.cpp:149): the
count it is given is the size of the buffer in bytes, not its number of
elements, so `fgetws` stores what it reads even when that text and its
terminating NUL take more than the 256 elements.  `readline` allocates the
buffer it returns. -/
def overrunsCommandbuf (windows : Bool) (r : ReadOutcome) : Bool :=
  windows && decide (commandbufLength ≤ wideLength (r.line.getD []))

/-- The read at the head of the loop body (CliRunnable.cpp:147-165, up to the
point where the buffer is available): `readline(CLI_PREFIX)` shows the prompt
and reads; `fgetws` only reads. -/
def CliThread.read (windows : Bool) (r : ReadOutcome) (s : CliState) : CliState :=
  { s with
    console := s.console ++
      (if windows then [ConsoleEvent.readCall] else [ConsoleEvent.prompt, ConsoleEvent.readCall]),
    world := s.world.raisedElsewhere r.stopRaised }

/-- `sWorld->QueueCliCommand(new CliCommandHolder(nullptr, command.c_str(),
&utf8print, &commandFinished))` followed, off Windows, by
`add_history(command.c_str())` (CliRunnable.cpp:183-187). -/
def CliThread.submit (windows : Bool) (command : CppString) (s : CliState) : CliState :=
  { s with
    queue := s.queue ++
      [⟨CallbackArg.null, c_str command, PrintFn.utf8print, CommandFinishedFn.commandFinished⟩],
    history := if windows then s.history else s.history ++ [c_str command] }

/-- One pass through the body of the loop of `CliThread`
(CliRunnable.cpp:143-192) when the read stays within its buffer.  The command
is the text of the buffer: `command = command_str`, or `WStrToUtf8` of the
first `wcslen(commandbuf)` wide characters. -/
def CliThread.pass (windows : Bool) (SHUTDOWN_EXIT_CODE : Nat) (r : ReadOutcome)
    (s : CliState) : CliState :=
  let s := CliThread.read windows r s
  if windows && r.line.isSome && !r.convOk then
    PrintCliPrefix s                       -- continue
  else
    let command : CppString := c_str (r.line.getD [])
    if command ≠ [] then
      match find_first_of command [CR, LF] with
      | some nextLineIndex =>
        if nextLineIndex = 0 then
          if windows then PrintCliPrefix s else s      -- continue
        else
          CliThread.submit windows (erase command nextLineIndex) s
      | none => CliThread.submit windows command s
    else if r.eof then
      { s with world := s.world.StopNow SHUTDOWN_EXIT_CODE,
               stopRequests := s.stopRequests ++ [SHUTDOWN_EXIT_CODE] }
    else s

/-- One pass through the body of the loop of `CliThread`
(CliRunnable.cpp:143-192).  `none` stands for undefined behaviour: the read
has written past `commandbuf`. -/
def CliThread.iteration (windows : Bool) (SHUTDOWN_EXIT_CODE : Nat) (r : ReadOutcome)
    (s : CliState) : Option CliState :=
  if overrunsCommandbuf windows r then none
  else some (CliThread.pass windows SHUTDOWN_EXIT_CODE r s)

/-- The loop `while (!World::IsStopped())` of `CliThread`
(CliRunnable.cpp:141-193).  The list gives the reads the environment offers;
the loop stops consuming them once it finds the world stopped.  `none` stands
for undefined behaviour. -/
def CliThread.loop (windows : Bool) (SHUTDOWN_EXIT_CODE : Nat) :
    List ReadOutcome → CliState → Option CliState
  | [], s => some s
  | r :: rest, s =>
    if s.world.IsStopped then some s
    else
      match CliThread.iteration windows SHUTDOWN_EXIT_CODE r s with
      | none => none
      | some s => CliThread.loop windows SHUTDOWN_EXIT_CODE rest s

/-- `CliThread()` (CliRunnable.cpp:108-196): the first prompt on Windows, the
optional alert, then the read loop.  The window flash of the Windows build
touches none of the state kept here. -/
def CliThread (windows BeepAtStart : Bool) (SHUTDOWN_EXIT_CODE : Nat)
    (reads : List ReadOutcome) (s : CliState) : Option CliState :=
  let s := if windows then PrintCliPrefix s else s
  let s := if BeepAtStart then { s with console := s.console ++ [ConsoleEvent.bell] } else s
  CliThread.loop windows SHUTDOWN_EXIT_CODE reads s

/-! ## Words of the specification -/

/-- Whether a character is neither CR nor LF. -/
def notLineBreak (c : Char) : Bool := c != CR && c != LF

/-- The longest prefix of a line that contains no CR and no LF, in the words
of the specification. -/
def longestPrefixNoLineBreak (line : CppString) : CppString :=
  line.takeWhile notLineBreak

/-- The console task that carries `text`. -/
def consoleTask (text : CppString) : CliCommandHolder :=
  ⟨CallbackArg.null, text, PrintFn.utf8print, CommandFinishedFn.commandFinished⟩

/-- The output accumulated from the `print` steps of a list of world steps. -/
def accumulatedOutput : List WorldStep → CppString
  | [] => []
  | WorldStep.print msg :: rest => msg ++ accumulatedOutput rest
  | _ :: rest => accumulatedOutput rest

/-- Whether a world step invokes the completion sink. -/
def WorldStep.isFinished : WorldStep → Bool
  | WorldStep.finished _ => true
  | _ => false

/-- Whether a world step is something else than the stop signal being set. -/
def WorldStep.notStopSignal : WorldStep → Bool
  | WorldStep.stopSignal => false
  | _ => true

/-- The passes of the accept loop that are run: all up to and including the
first one during which the stop signal is raised. -/
def passesUntilStop : List AcceptOutcome → List AcceptOutcome
  | [] => []
  | a :: rest => if a.stopRaised then [a] else a :: passesUntilStop rest

/-! ## Concrete collaborators used to instantiate the theorems -/

/-- An account table with the administrator `admin` (id 1, level 3) and the
player `player` (id 2, level 0). -/
def demoAccounts : AccountMgr where
  GetId := fun u => if u = "admin".toList then 1 else if u = "player".toList then 2 else 0
  CheckPassword := fun id p =>
    (id == 1 && p == "secret".toList) || (id == 2 && p == "pw".toList)
  GetSecurity := fun id => if id = 1 then 3 else 0

/-- Credentials of the administrator of `demoAccounts`. -/
def adminSoap : Soap := ⟨some "admin".toList, some "secret".toList⟩

/-- Credentials of the player of `demoAccounts`. -/
def playerSoap : Soap := ⟨some "player".toList, some "pw".toList⟩

/-- Four lines offered to the console: `help`, a bare CR, `info` followed by
LF and more text, and an empty line. -/
def demoReads : List ReadOutcome :=
  [⟨some "help".toList, true, false, false⟩,
   ⟨some [CR], true, false, false⟩,
   ⟨some ("info".toList ++ [LF] ++ "xx".toList), true, false, false⟩,
   ⟨some [], true, false, false⟩]

/-- The task that `ns1__executeCommand` builds for a command text. -/
def soapTask (text : CppString) : CliCommandHolder :=
  ⟨CallbackArg.connection, text, PrintFn.SOAPCommand_print,
    CommandFinishedFn.SOAPCommand_commandFinished⟩

/-! ## Lemmas on the rendezvous -/

theorem waitFinished_soapTask_finished (text : CppString) (pre post : List WorldStep)
    (success : Bool) (con : SOAPCommand)
    (hpre : ∀ st ∈ pre, st.isFinished = false) :
    waitFinished (soapTask text) (pre ++ WorldStep.finished success :: post) con
      = some ⟨con.m_printBuffer ++ accumulatedOutput pre, success, true⟩ := by
  induction pre generalizing con with
  | nil =>
    simp [waitFinished, soapTask, CliCommandHolder.invokeCommandFinished,
      SOAPCommand.commandFinished, SOAPCommand.setCommandSuccess, accumulatedOutput]
  | cons st pre ih =>
    have hst : st.isFinished = false := hpre st (List.mem_cons_self _ _)
    have hrest : ∀ t ∈ pre, t.isFinished = false :=
      fun t ht => hpre t (List.mem_cons_of_mem _ ht)
    cases st with
    | print msg =>
      show waitFinished (soapTask text) (pre ++ WorldStep.finished success :: post)
          ((soapTask text).invokePrint msg con) = _
      rw [ih _ hrest]
      simp [soapTask, CliCommandHolder.invokePrint, SOAPCommand.print,
        SOAPCommand.appendToPrintBuffer, accumulatedOutput]
    | finished b => simp [WorldStep.isFinished] at hst
    | stopSignal => simp [waitFinished, ih _ hrest, accumulatedOutput]
    | idle => simp [waitFinished, ih _ hrest, accumulatedOutput]

theorem waitFinished_none_of_no_finished (cmd : CliCommandHolder) (world : List WorldStep)
    (con : SOAPCommand) (hw : ∀ st ∈ world, st.isFinished = false) :
    waitFinished cmd world con = none := by
  induction world generalizing con with
  | nil => rfl
  | cons st world ih =>
    have hst : st.isFinished = false := hw st (List.mem_cons_self _ _)
    have hrest : ∀ t ∈ world, t.isFinished = false :=
      fun t ht => hw t (List.mem_cons_of_mem _ ht)
    cases st with
    | print msg => simp [waitFinished, ih _ hrest]
    | finished b => simp [WorldStep.isFinished] at hst
    | stopSignal => simp [waitFinished, ih _ hrest]
    | idle => simp [waitFinished, ih _ hrest]

theorem waitFinished_soapTask_isSome (text : CppString) (world : List WorldStep)
    (con : SOAPCommand) :
    (waitFinished (soapTask text) world con).isSome = true ↔
      ∃ st ∈ world, st.isFinished = true := by
  induction world generalizing con with
  | nil => simp [waitFinished]
  | cons st world ih =>
    cases st with
    | print msg => simp [waitFinished, ih, WorldStep.isFinished]
    | finished b =>
      simp [waitFinished, soapTask, CliCommandHolder.invokeCommandFinished,
        SOAPCommand.commandFinished, SOAPCommand.setCommandSuccess, WorldStep.isFinished]
    | stopSignal => simp [waitFinished, ih, WorldStep.isFinished]
    | idle => simp [waitFinished, ih, WorldStep.isFinished]

theorem waitFinished_ignores_stopSignal (cmd : CliCommandHolder) (world : List WorldStep)
    (con : SOAPCommand) :
    waitFinished cmd (world.filter WorldStep.notStopSignal) con
      = waitFinished cmd world con := by
  induction world generalizing con with
  | nil => rfl
  | cons st world ih =>
    cases st with
    | print msg => simp [waitFinished, ih, WorldStep.notStopSignal]
    | finished b =>
      by_cases h : (cmd.invokeCommandFinished b con).resolved = true
      · simp [waitFinished, h, WorldStep.notStopSignal]
      · simp [waitFinished, h, ih, WorldStep.notStopSignal]
    | stopSignal => simp [waitFinished, ih, WorldStep.notStopSignal]
    | idle => simp [waitFinished, ih, WorldStep.notStopSignal]

/-- The handler, once the four checks have passed and the command text is not
empty, in terms of the rendezvous. -/
theorem ns1__executeCommand_admin (acc : AccountMgr) (sec : Nat) (soap : Soap)
    (text : CppString) (world : List WorldStep) (u p : CppString)
    (hu : soap.userid = some u) (hp : soap.passwd = some p)
    (hid : acc.GetId u ≠ 0) (hpw : acc.CheckPassword (acc.GetId u) p = true)
    (hsec : sec ≤ acc.GetSecurity (acc.GetId u)) (htext : text ≠ []) :
    ns1__executeCommand acc sec soap (some text) world =
      let q := [AccountQuery.GetId u, AccountQuery.CheckPassword (acc.GetId u) p,
                AccountQuery.GetSecurity (acc.GetId u)]
      match waitFinished (soapTask text) world {} with
      | none => { ret := none, queued := [soapTask text], queries := q, waited := true }
      | some connection =>
        if connection.hasCommandSucceeded then
          { ret := some SOAP_OK, result := some (c_str connection.m_printBuffer),
            queued := [soapTask text], queries := q, waited := true }
        else
          { ret := some SOAP_FAULT,
            fault := some ⟨true, c_str connection.m_printBuffer,
              c_str connection.m_printBuffer⟩,
            queued := [soapTask text], queries := q, waited := true } := by
  cases text with
  | nil => exact absurd rfl htext
  | cons c cs =>
    have hsec2 : ¬ acc.GetSecurity (acc.GetId u) < sec := Nat.not_lt.mpr hsec
    cases soap with
    | mk userid passwd =>
      simp only at hu hp
      subst hu hp
      simp only [ns1__executeCommand, hid, hpw, hsec2, if_false, Bool.not_true,
        Bool.false_eq_true, soapTask, List.cons_append, List.nil_append]
      cases waitFinished ⟨CallbackArg.connection, c :: cs, PrintFn.SOAPCommand_print,
          CommandFinishedFn.SOAPCommand_commandFinished⟩ world {} with
      | none => rfl
      | some con =>
        by_cases h : con.hasCommandSucceeded = true
        · simp [h, soap_strdup]
        · simp [h, soap_sender_fault, soap_strdup]

theorem c_str_eq_self (l : CppString) (h : NUL ∉ l) : c_str l = l := by
  induction l with
  | nil => rfl
  | cons c cs ih =>
    have hc : c ≠ NUL := fun hc => h (by simp [hc])
    have hcs : NUL ∉ cs := fun hcs => h (List.mem_cons_of_mem _ hcs)
    have ih2 : List.takeWhile (fun c => c != NUL) cs = cs := ih hcs
    have hb : (c != NUL) = true := by simp [hc]
    simp only [c_str, List.takeWhile, hb, ih2]

/-! ## The SOAP adapter: rejections -/

/-- C1. Whatever the command text and whatever the rest of the process does,
`ns1__executeCommand` returns 401 exactly when the userid or the passwd is
missing, or `GetId` yields id 0, or `CheckPassword` is false; whenever it
returns 401 no task has been queued and the rendezvous has not been waited
on; and when the userid or the passwd is missing the account collaborator has
not been queried at all. -/
theorem executeCommand_401_iff (acc : AccountMgr) (sec : Nat) (soap : Soap)
    (command : Option CppString) (world : List WorldStep) :
    ((ns1__executeCommand acc sec soap command world).ret = some 401 ↔
      (soap.userid = none ∨ soap.passwd = none ∨
        ∃ u p, soap.userid = some u ∧ soap.passwd = some p ∧
          (acc.GetId u = 0 ∨ acc.CheckPassword (acc.GetId u) p = false))) ∧
    ((ns1__executeCommand acc sec soap command world).ret = some 401 →
      (ns1__executeCommand acc sec soap command world).queued = [] ∧
      (ns1__executeCommand acc sec soap command world).waited = false ∧
      (ns1__executeCommand acc sec soap command world).result = none) ∧
    (soap.userid = none ∨ soap.passwd = none →
      (ns1__executeCommand acc sec soap command world).queries = []) := by
  obtain ⟨userid, passwd⟩ := soap
  cases userid with
  | none => simp [ns1__executeCommand]
  | some u =>
    cases passwd with
    | none => simp [ns1__executeCommand]
    | some p =>
      by_cases hid : acc.GetId u = 0
      · simp [ns1__executeCommand, hid]
      · by_cases hpw : acc.CheckPassword (acc.GetId u) p = true
        · by_cases hsec : acc.GetSecurity (acc.GetId u) < sec
          · simp [ns1__executeCommand, hid, hpw, hsec]
          · cases command with
            | none =>
              simp [ns1__executeCommand, hid, hpw, hsec, soap_sender_fault, SOAP_FAULT]
            | some text =>
              cases text with
              | nil =>
                simp [ns1__executeCommand, hid, hpw, hsec, soap_sender_fault, SOAP_FAULT]
              | cons c cs =>
                rw [ns1__executeCommand_admin acc sec _ (c :: cs) world u p rfl rfl hid hpw
                  (Nat.not_lt.mp hsec) (by simp)]
                cases waitFinished (soapTask (c :: cs)) world {} with
                | none => simp [hid, hpw]
                | some con =>
                  by_cases h : con.hasCommandSucceeded = true
                  · simp [h, SOAP_OK, hid, hpw]
                  · simp [h, SOAP_FAULT, hid, hpw]
        · simp [ns1__executeCommand, hid, hpw]

/-- C2. For a caller whose credentials are present and pass authentication,
`ns1__executeCommand` returns 403 exactly when `GetSecurity` of the account is
below `SEC_ADMINISTRATOR`, whatever the command text; when it returns 403 no
task has been queued; an account at or above `SEC_ADMINISTRATOR` never gets
403. -/
theorem executeCommand_403_iff (acc : AccountMgr) (sec : Nat) (soap : Soap)
    (command : Option CppString) (world : List WorldStep) (u p : CppString)
    (hu : soap.userid = some u) (hp : soap.passwd = some p)
    (hid : acc.GetId u ≠ 0) (hpw : acc.CheckPassword (acc.GetId u) p = true) :
    ((ns1__executeCommand acc sec soap command world).ret = some 403 ↔
      acc.GetSecurity (acc.GetId u) < sec) ∧
    ((ns1__executeCommand acc sec soap command world).ret = some 403 →
      (ns1__executeCommand acc sec soap command world).queued = [] ∧
      (ns1__executeCommand acc sec soap command world).waited = false ∧
      (ns1__executeCommand acc sec soap command world).result = none) ∧
    (sec ≤ acc.GetSecurity (acc.GetId u) →
      (ns1__executeCommand acc sec soap command world).ret ≠ some 403) := by
  obtain ⟨userid, passwd⟩ := soap
  simp only at hu hp
  subst hu hp
  by_cases hsec : acc.GetSecurity (acc.GetId u) < sec
  · simp [ns1__executeCommand, hid, hpw, hsec]
  · cases command with
    | none =>
      simp [ns1__executeCommand, hid, hpw, hsec, soap_sender_fault, SOAP_FAULT]
    | some text =>
      cases text with
      | nil =>
        simp [ns1__executeCommand, hid, hpw, hsec, soap_sender_fault, SOAP_FAULT]
      | cons c cs =>
        rw [ns1__executeCommand_admin acc sec _ (c :: cs) world u p rfl rfl hid hpw
          (Nat.not_lt.mp hsec) (by simp)]
        simp only [hsec]
        cases waitFinished (soapTask (c :: cs)) world {} with
        | none => simp
        | some con =>
          by_cases h : con.hasCommandSucceeded = true
          · simp [h, SOAP_OK]
          · simp [h, SOAP_FAULT]

/-- Witness of C2 on the account table `demoAccounts`: the player (level 0) is
answered 403 for the command `help`. -/
theorem executeCommand_403_iff_witness :
    ((ns1__executeCommand demoAccounts 3 playerSoap (some "help".toList) []).ret = some 403 ↔
      demoAccounts.GetSecurity (demoAccounts.GetId "player".toList) < 3) ∧
    ((ns1__executeCommand demoAccounts 3 playerSoap (some "help".toList) []).ret = some 403 →
      (ns1__executeCommand demoAccounts 3 playerSoap (some "help".toList) []).queued = [] ∧
      (ns1__executeCommand demoAccounts 3 playerSoap (some "help".toList) []).waited = false ∧
      (ns1__executeCommand demoAccounts 3 playerSoap (some "help".toList) []).result = none) ∧
    (3 ≤ demoAccounts.GetSecurity (demoAccounts.GetId "player".toList) →
      (ns1__executeCommand demoAccounts 3 playerSoap (some "help".toList) []).ret ≠ some 403) :=
  executeCommand_403_iff demoAccounts 3 playerSoap (some "help".toList) []
    "player".toList "pw".toList rfl rfl (by decide) (by decide)

/-- C3. When the command is null or the empty string: a caller that passes
authentication and has administrator privilege gets a sender fault (status
`SOAP_FAULT`, never `SOAP_OK`) with the fixed "empty command" texts, no task
is queued and the rendezvous is not waited on, so the call returns whatever
the rest of the process does; and that fault is returned only when the 401
and the 403 checks have passed: a caller that fails authentication gets 401
and an authenticated caller below administrator level gets 403. -/
theorem executeCommand_empty_command (acc : AccountMgr) (sec : Nat) (soap : Soap)
    (command : Option CppString) (world : List WorldStep)
    (hcmd : command = none ∨ command = some []) :
    (∀ u p, soap.userid = some u → soap.passwd = some p → acc.GetId u ≠ 0 →
      acc.CheckPassword (acc.GetId u) p = true → sec ≤ acc.GetSecurity (acc.GetId u) →
      (ns1__executeCommand acc sec soap command world).ret = some SOAP_FAULT ∧
      (ns1__executeCommand acc sec soap command world).ret ≠ some SOAP_OK ∧
      (ns1__executeCommand acc sec soap command world).fault =
        some ⟨true, "Command can not be empty".toList,
          "The supplied command was an empty string".toList⟩ ∧
      (ns1__executeCommand acc sec soap command world).result = none ∧
      (ns1__executeCommand acc sec soap command world).queued = [] ∧
      (ns1__executeCommand acc sec soap command world).waited = false) ∧
    ((ns1__executeCommand acc sec soap command world).ret = some SOAP_FAULT →
      ∃ u p, soap.userid = some u ∧ soap.passwd = some p ∧ acc.GetId u ≠ 0 ∧
        acc.CheckPassword (acc.GetId u) p = true ∧ sec ≤ acc.GetSecurity (acc.GetId u)) ∧
    ((soap.userid = none ∨ soap.passwd = none ∨
        ∃ u p, soap.userid = some u ∧ soap.passwd = some p ∧
          (acc.GetId u = 0 ∨ acc.CheckPassword (acc.GetId u) p = false)) →
      (ns1__executeCommand acc sec soap command world).ret = some 401) ∧
    (∀ u p, soap.userid = some u → soap.passwd = some p → acc.GetId u ≠ 0 →
      acc.CheckPassword (acc.GetId u) p = true → acc.GetSecurity (acc.GetId u) < sec →
      (ns1__executeCommand acc sec soap command world).ret = some 403) := by
  obtain ⟨userid, passwd⟩ := soap
  cases userid with
  | none => rcases hcmd with h | h <;> subst h <;> simp [ns1__executeCommand, SOAP_FAULT]
  | some u =>
    cases passwd with
    | none => rcases hcmd with h | h <;> subst h <;> simp [ns1__executeCommand, SOAP_FAULT]
    | some p =>
      by_cases hid : acc.GetId u = 0
      · rcases hcmd with h | h <;> subst h <;> simp [ns1__executeCommand, hid, SOAP_FAULT]
      · by_cases hpw : acc.CheckPassword (acc.GetId u) p = true
        · by_cases hsec : acc.GetSecurity (acc.GetId u) < sec
          · rcases hcmd with h | h <;> subst h <;>
              simp [ns1__executeCommand, hid, hpw, hsec, SOAP_FAULT]
          · rcases hcmd with h | h <;> subst h <;>
              simp [ns1__executeCommand, hid, hpw, hsec, soap_sender_fault, SOAP_FAULT,
                SOAP_OK, Nat.not_lt.mp hsec]
        · rcases hcmd with h | h <;> subst h <;>
            simp [ns1__executeCommand, hid, hpw, SOAP_FAULT]

/-- Witness of C3 on `demoAccounts`: the administrator sends the empty
string. -/
theorem executeCommand_empty_command_witness :
    (ns1__executeCommand demoAccounts 3 adminSoap (some []) []).ret = some SOAP_FAULT ∧
    (ns1__executeCommand demoAccounts 3 adminSoap (some []) []).queued = [] ∧
    (ns1__executeCommand demoAccounts 3 playerSoap (some []) []).ret = some 403 :=
  have h := executeCommand_empty_command demoAccounts 3 adminSoap (some []) [] (Or.inr rfl)
  have h2 := executeCommand_empty_command demoAccounts 3 playerSoap (some []) [] (Or.inr rfl)
  ⟨(h.1 "admin".toList "secret".toList rfl rfl (by decide) (by decide) (by decide)).1,
   (h.1 "admin".toList "secret".toList rfl rfl (by decide) (by decide) (by decide)).2.2.2.2.1,
   h2.2.2.2 "player".toList "pw".toList rfl rfl (by decide) (by decide) (by decide)⟩

/-! ## The SOAP adapter: queueing and the rendezvous -/

/-- C4, as stated, fails: the administrator of `demoAccounts` sends `help`,
the output sink receives the chunk `ab`, NUL, `cd` and the completion sink
reports success.  The print buffer holds all five characters, the call
returns `SOAP_OK`, and `*result` is `ab`, not the accumulated output. -/
theorem executeCommand_success_result_cut_at_NUL :
    waitFinished (soapTask "help".toList)
        [WorldStep.print ['a', 'b', NUL, 'c', 'd'], WorldStep.finished true] {} =
      some ⟨['a', 'b', NUL, 'c', 'd'], true, true⟩ ∧
    (ns1__executeCommand demoAccounts 3 adminSoap (some "help".toList)
        [WorldStep.print ['a', 'b', NUL, 'c', 'd'], WorldStep.finished true]).ret =
      some SOAP_OK ∧
    (ns1__executeCommand demoAccounts 3 adminSoap (some "help".toList)
        [WorldStep.print ['a', 'b', NUL, 'c', 'd'], WorldStep.finished true]).result =
      some ['a', 'b'] ∧
    (ns1__executeCommand demoAccounts 3 adminSoap (some "help".toList)
        [WorldStep.print ['a', 'b', NUL, 'c', 'd'], WorldStep.finished true]).result ≠
      some (accumulatedOutput [WorldStep.print ['a', 'b', NUL, 'c', 'd']]) := by
  decide

/-- C4, amended. For a caller that passes authentication with administrator
privilege and sends a non-empty command text: whatever the rest of the
process does, exactly one task is queued, carrying that text, the connection
as context, `SOAPCommand::print` as output sink and
`SOAPCommand::commandFinished` as completion sink, and the call waits on the
rendezvous (it has not returned as long as the completion sink has not been
invoked); and when the completion sink is invoked with success, the call
returns `SOAP_OK` with `*result` equal to the output that the output sink
accumulated until then, read as a C string: the text before its first NUL,
which is the whole output when it holds no NUL. -/
theorem executeCommand_success (acc : AccountMgr) (sec : Nat) (soap : Soap)
    (text : CppString) (u p : CppString)
    (hu : soap.userid = some u) (hp : soap.passwd = some p)
    (hid : acc.GetId u ≠ 0) (hpw : acc.CheckPassword (acc.GetId u) p = true)
    (hsec : sec ≤ acc.GetSecurity (acc.GetId u)) (htext : text ≠ []) :
    (∀ world,
      (ns1__executeCommand acc sec soap (some text) world).queued =
        [⟨CallbackArg.connection, text, PrintFn.SOAPCommand_print,
          CommandFinishedFn.SOAPCommand_commandFinished⟩] ∧
      (ns1__executeCommand acc sec soap (some text) world).waited = true) ∧
    (∀ world, (∀ st ∈ world, st.isFinished = false) →
      (ns1__executeCommand acc sec soap (some text) world).ret = none) ∧
    (∀ pre post, (∀ st ∈ pre, st.isFinished = false) →
      (ns1__executeCommand acc sec soap (some text)
          (pre ++ WorldStep.finished true :: post)).ret = some SOAP_OK ∧
      (ns1__executeCommand acc sec soap (some text)
          (pre ++ WorldStep.finished true :: post)).result =
        some (c_str (accumulatedOutput pre)) ∧
      (NUL ∉ accumulatedOutput pre →
        (ns1__executeCommand acc sec soap (some text)
          (pre ++ WorldStep.finished true :: post)).result = some (accumulatedOutput pre)) ∧
      (ns1__executeCommand acc sec soap (some text)
          (pre ++ WorldStep.finished true :: post)).fault = none) := by
  refine ⟨fun world => ?_, fun world hw => ?_, fun pre post hpre => ?_⟩
  · rw [ns1__executeCommand_admin acc sec soap text world u p hu hp hid hpw hsec htext]
    cases waitFinished (soapTask text) world {} with
    | none => simp [soapTask]
    | some con =>
      by_cases h : con.hasCommandSucceeded = true
      · simp [h, soapTask]
      · simp [h, soapTask]
  · rw [ns1__executeCommand_admin acc sec soap text world u p hu hp hid hpw hsec htext,
      waitFinished_none_of_no_finished _ _ _ hw]
  · rw [ns1__executeCommand_admin acc sec soap text _ u p hu hp hid hpw hsec htext,
      waitFinished_soapTask_finished text pre post true {} hpre]
    refine ⟨by simp [SOAPCommand.hasCommandSucceeded],
      by simp [SOAPCommand.hasCommandSucceeded], fun hnul => ?_,
      by simp [SOAPCommand.hasCommandSucceeded]⟩
    simp [SOAPCommand.hasCommandSucceeded, c_str_eq_self _ hnul]

/-- Witness of the amended C4 on `demoAccounts`: the administrator sends
`help`, the world prints two chunks and reports success. -/
theorem executeCommand_success_witness :
    (ns1__executeCommand demoAccounts 3 adminSoap (some "help".toList)
        ([WorldStep.print "Commands: ".toList, WorldStep.print "help".toList] ++
          WorldStep.finished true :: [])).ret = some SOAP_OK ∧
    (ns1__executeCommand demoAccounts 3 adminSoap (some "help".toList)
        ([WorldStep.print "Commands: ".toList, WorldStep.print "help".toList] ++
          WorldStep.finished true :: [])).result =
      some (accumulatedOutput [WorldStep.print "Commands: ".toList, WorldStep.print "help".toList]) :=
  have h := (executeCommand_success demoAccounts 3 adminSoap "help".toList "admin".toList
    "secret".toList rfl rfl (by decide) (by decide) (by decide) (by decide)).2.2
    [WorldStep.print "Commands: ".toList, WorldStep.print "help".toList] []
    (by decide)
  ⟨h.1, h.2.2.1 (by decide)⟩

/-- C5, as stated, fails: the administrator of `demoAccounts` sends `foo`, the
output sink receives the chunk `no`, NUL, `such command` and the completion
sink reports failure.  The call returns the fault status, `*result` is not
assigned, and the fault text is `no`, not the accumulated output. -/
theorem executeCommand_failure_text_cut_at_NUL :
    waitFinished (soapTask "foo".toList)
        [WorldStep.print (['n', 'o', NUL] ++ "such command".toList),
          WorldStep.finished false] {} =
      some ⟨['n', 'o', NUL] ++ "such command".toList, false, true⟩ ∧
    (ns1__executeCommand demoAccounts 3 adminSoap (some "foo".toList)
        [WorldStep.print (['n', 'o', NUL] ++ "such command".toList),
          WorldStep.finished false]).ret = some SOAP_FAULT ∧
    (ns1__executeCommand demoAccounts 3 adminSoap (some "foo".toList)
        [WorldStep.print (['n', 'o', NUL] ++ "such command".toList),
          WorldStep.finished false]).fault = some ⟨true, ['n', 'o'], ['n', 'o']⟩ ∧
    (ns1__executeCommand demoAccounts 3 adminSoap (some "foo".toList)
        [WorldStep.print (['n', 'o', NUL] ++ "such command".toList),
          WorldStep.finished false]).fault ≠
      some ⟨true,
        accumulatedOutput [WorldStep.print (['n', 'o', NUL] ++ "such command".toList)],
        accumulatedOutput [WorldStep.print (['n', 'o', NUL] ++ "such command".toList)]⟩ := by
  decide

/-- C5, amended. For a queued command whose completion sink is invoked with
`success = false`, `ns1__executeCommand` returns the fault status (not
`SOAP_OK`), the fault carries, as fault string and as detail, the output
accumulated in the print buffer read as a C string (the text before its first
NUL, which is the whole output when it holds no NUL), and `*result` is not
assigned. -/
theorem executeCommand_failure (acc : AccountMgr) (sec : Nat) (soap : Soap)
    (text : CppString) (u p : CppString) (pre post : List WorldStep)
    (hu : soap.userid = some u) (hp : soap.passwd = some p)
    (hid : acc.GetId u ≠ 0) (hpw : acc.CheckPassword (acc.GetId u) p = true)
    (hsec : sec ≤ acc.GetSecurity (acc.GetId u)) (htext : text ≠ [])
    (hpre : ∀ st ∈ pre, st.isFinished = false) :
    (ns1__executeCommand acc sec soap (some text)
        (pre ++ WorldStep.finished false :: post)).ret = some SOAP_FAULT ∧
    (ns1__executeCommand acc sec soap (some text)
        (pre ++ WorldStep.finished false :: post)).ret ≠ some SOAP_OK ∧
    (ns1__executeCommand acc sec soap (some text)
        (pre ++ WorldStep.finished false :: post)).fault =
      some ⟨true, c_str (accumulatedOutput pre), c_str (accumulatedOutput pre)⟩ ∧
    (NUL ∉ accumulatedOutput pre →
      (ns1__executeCommand acc sec soap (some text)
        (pre ++ WorldStep.finished false :: post)).fault =
      some ⟨true, accumulatedOutput pre, accumulatedOutput pre⟩) ∧
    (ns1__executeCommand acc sec soap (some text)
        (pre ++ WorldStep.finished false :: post)).result = none ∧
    (ns1__executeCommand acc sec soap (some text)
        (pre ++ WorldStep.finished false :: post)).queued = [soapTask text] := by
  rw [ns1__executeCommand_admin acc sec soap text _ u p hu hp hid hpw hsec htext,
    waitFinished_soapTask_finished text pre post false {} hpre]
  refine ⟨by simp [SOAPCommand.hasCommandSucceeded, SOAP_FAULT],
    by simp [SOAPCommand.hasCommandSucceeded, SOAP_FAULT, SOAP_OK],
    by simp [SOAPCommand.hasCommandSucceeded], fun hnul => ?_,
    by simp [SOAPCommand.hasCommandSucceeded], by simp [SOAPCommand.hasCommandSucceeded]⟩
  simp [SOAPCommand.hasCommandSucceeded, c_str_eq_self _ hnul]

/-- Witness of the amended C5 on `demoAccounts`: the administrator sends
`foo`, the world prints an error text and reports failure. -/
theorem executeCommand_failure_witness :
    (ns1__executeCommand demoAccounts 3 adminSoap (some "foo".toList)
        ([WorldStep.print "There is no such command".toList] ++
          WorldStep.finished false :: [])).ret = some SOAP_FAULT ∧
    (ns1__executeCommand demoAccounts 3 adminSoap (some "foo".toList)
        ([WorldStep.print "There is no such command".toList] ++
          WorldStep.finished false :: [])).fault =
      some ⟨true, accumulatedOutput [WorldStep.print "There is no such command".toList],
        accumulatedOutput [WorldStep.print "There is no such command".toList]⟩ :=
  have h := executeCommand_failure demoAccounts 3 adminSoap "foo".toList "admin".toList
    "secret".toList [WorldStep.print "There is no such command".toList] []
    rfl rfl (by decide) (by decide) (by decide) (by decide) (by decide)
  ⟨h.1, h.2.2.2.1 (by decide)⟩

/-- C6, as stated, fails: the administrator of `demoAccounts` sends `help`,
the task is queued, the stop signal is set and the completion sink is never
invoked; the call has queued its task, waits, and does not return, so it
reports no failure of any kind. -/
theorem executeCommand_stop_signal_not_observed :
    (ns1__executeCommand demoAccounts 3 adminSoap (some "help".toList)
        [WorldStep.idle, WorldStep.stopSignal, WorldStep.idle]).queued =
      [soapTask "help".toList] ∧
    (ns1__executeCommand demoAccounts 3 adminSoap (some "help".toList)
        [WorldStep.idle, WorldStep.stopSignal, WorldStep.idle]).waited = true ∧
    (ns1__executeCommand demoAccounts 3 adminSoap (some "help".toList)
        [WorldStep.idle, WorldStep.stopSignal, WorldStep.idle]).ret = none ∧
    (ns1__executeCommand demoAccounts 3 adminSoap (some "help".toList)
        [WorldStep.idle, WorldStep.stopSignal, WorldStep.idle]).fault = none := by
  decide

/-- C6, amended. A call that has queued its task returns exactly when the
completion sink of the task is invoked; the wait does not observe the stop
signal: removing or adding stop signals among the steps of the rest of the
process changes nothing in what the call does, and when the completion sink
is never invoked the call stays blocked whether or not the stop signal is
set. -/
theorem executeCommand_returns_iff_finished (acc : AccountMgr) (sec : Nat) (soap : Soap)
    (text : CppString) (u p : CppString) (world : List WorldStep)
    (hu : soap.userid = some u) (hp : soap.passwd = some p)
    (hid : acc.GetId u ≠ 0) (hpw : acc.CheckPassword (acc.GetId u) p = true)
    (hsec : sec ≤ acc.GetSecurity (acc.GetId u)) (htext : text ≠ []) :
    ((ns1__executeCommand acc sec soap (some text) world).ret.isSome = true ↔
      ∃ st ∈ world, st.isFinished = true) ∧
    ns1__executeCommand acc sec soap (some text) (world.filter WorldStep.notStopSignal) =
      ns1__executeCommand acc sec soap (some text) world ∧
    ((∀ st ∈ world, st.isFinished = false) →
      (ns1__executeCommand acc sec soap (some text) world).ret = none ∧
      (ns1__executeCommand acc sec soap (some text) world).fault = none) := by
  refine ⟨?_, ?_, fun hw => ?_⟩
  · rw [ns1__executeCommand_admin acc sec soap text world u p hu hp hid hpw hsec htext,
      ← waitFinished_soapTask_isSome text world {}]
    cases waitFinished (soapTask text) world {} with
    | none => simp
    | some con =>
      by_cases h : con.hasCommandSucceeded = true
      · simp [h]
      · simp [h]
  · rw [ns1__executeCommand_admin acc sec soap text world u p hu hp hid hpw hsec htext,
      ns1__executeCommand_admin acc sec soap text _ u p hu hp hid hpw hsec htext,
      waitFinished_ignores_stopSignal]
  · rw [ns1__executeCommand_admin acc sec soap text world u p hu hp hid hpw hsec htext,
      waitFinished_none_of_no_finished _ _ _ hw]
    simp

/-- Witness of the amended C6 on `demoAccounts`, for steps that set the stop
signal and never invoke the completion sink. -/
theorem executeCommand_returns_iff_finished_witness :
    (ns1__executeCommand demoAccounts 3 adminSoap (some "help".toList)
        [WorldStep.stopSignal, WorldStep.print "x".toList]).ret = none ∧
    (ns1__executeCommand demoAccounts 3 adminSoap (some "help".toList)
        [WorldStep.stopSignal, WorldStep.print "x".toList]).fault = none :=
  (executeCommand_returns_iff_finished demoAccounts 3 adminSoap "help".toList "admin".toList
    "secret".toList [WorldStep.stopSignal, WorldStep.print "x".toList]
    rfl rfl (by decide) (by decide) (by decide) (by decide)).2.2 (by decide)

/-! ## Lemmas on the console line -/

theorem notLineBreak_eq_false_iff (c : Char) :
    notLineBreak c = false ↔ c ∈ [CR, LF] := by
  simp only [notLineBreak, List.mem_cons, List.mem_singleton, List.not_mem_nil, or_false]
  by_cases h1 : c = CR
  · simp [h1]
  · by_cases h2 : c = LF
    · simp [h2]
    · simp [h1, h2]

theorem find_first_of_erase (l : CppString) :
    (match find_first_of l [CR, LF] with
      | some nextLineIndex => erase l nextLineIndex
      | none => l) = longestPrefixNoLineBreak l := by
  induction l with
  | nil => rfl
  | cons c cs ih =>
    by_cases hc : c ∈ [CR, LF]
    · have hn : notLineBreak c = false := (notLineBreak_eq_false_iff c).mpr hc
      simp [find_first_of, hc, erase, longestPrefixNoLineBreak, List.takeWhile, hn]
    · have hn : notLineBreak c = true := by
        cases h : notLineBreak c with
        | true => rfl
        | false => exact absurd ((notLineBreak_eq_false_iff c).mp h) hc
      simp only [find_first_of, if_neg hc, longestPrefixNoLineBreak, List.takeWhile, hn]
      cases hf : find_first_of cs [CR, LF] with
      | none =>
        rw [hf] at ih
        simp only [Option.map_none']
        exact congrArg (c :: ·) ih
      | some i =>
        rw [hf] at ih
        simp only [Option.map_some', erase, List.take_succ_cons]
        exact congrArg (c :: ·) ih

theorem find_first_of_zero_iff (l : CppString) :
    find_first_of l [CR, LF] = some 0 ↔ ∃ c cs, l = c :: cs ∧ (c = CR ∨ c = LF) := by
  cases l with
  | nil => simp [find_first_of]
  | cons c cs =>
    by_cases hc : c ∈ [CR, LF]
    · have hc2 : c = CR ∨ c = LF := by simpa using hc
      simp [find_first_of, hc, hc2]
    · have hc2 : ¬ (c = CR ∨ c = LF) := by simpa using hc
      simp only [find_first_of, if_neg hc]
      cases find_first_of cs [CR, LF] with
      | none => simp [hc2]
      | some i => simp [hc2]

theorem longestPrefixNoLineBreak_eq_nil_iff (l : CppString) :
    longestPrefixNoLineBreak l = [] ↔ l = [] ∨ find_first_of l [CR, LF] = some 0 := by
  cases l with
  | nil => simp [longestPrefixNoLineBreak]
  | cons c cs =>
    rw [find_first_of_zero_iff]
    by_cases hc : c ∈ [CR, LF]
    · have hn : notLineBreak c = false := (notLineBreak_eq_false_iff c).mpr hc
      have hc2 : c = CR ∨ c = LF := by simpa using hc
      simp [longestPrefixNoLineBreak, List.takeWhile, hn, hc2]
    · have hn : notLineBreak c = true := by
        cases h : notLineBreak c with
        | true => rfl
        | false => exact absurd ((notLineBreak_eq_false_iff c).mp h) hc
      have hc2 : ¬ (c = CR ∨ c = LF) := by simpa using hc
      simp [longestPrefixNoLineBreak, List.takeWhile, hn, hc2]

theorem longestPrefixNoLineBreak_initial (l : CppString) :
    longestPrefixNoLineBreak l <+: l :=
  List.takeWhile_prefix _

theorem longestPrefixNoLineBreak_free (l : CppString) :
    ∀ c ∈ longestPrefixNoLineBreak l, c ≠ CR ∧ c ≠ LF := by
  intro c hc
  have h : notLineBreak c = true := List.mem_takeWhile_imp hc
  constructor
  · intro h1
    have := (notLineBreak_eq_false_iff c).mpr (by simp [h1])
    simp [h] at this
  · intro h2
    have := (notLineBreak_eq_false_iff c).mpr (by simp [h2])
    simp [h] at this

theorem longestPrefixNoLineBreak_longest (l q : CppString) (hq : q <+: l)
    (hfree : ∀ c ∈ q, c ≠ CR ∧ c ≠ LF) : q <+: longestPrefixNoLineBreak l := by
  induction l generalizing q with
  | nil =>
    have : q = [] := List.prefix_nil.mp hq
    subst this
    exact List.nil_prefix
  | cons c cs ih =>
    cases q with
    | nil => exact List.nil_prefix
    | cons d ds =>
      have hdc : d = c ∧ ds <+: cs := List.cons_prefix_cons.mp hq
      obtain ⟨hd, hds⟩ := hdc
      subst hd
      have hdfree := hfree d (List.mem_cons_self _ _)
      have hn : notLineBreak d = true := by
        cases h : notLineBreak d with
        | true => rfl
        | false =>
          have := (notLineBreak_eq_false_iff d).mp h
          simp [hdfree.1, hdfree.2] at this
      simp only [longestPrefixNoLineBreak, List.takeWhile, hn]
      exact List.cons_prefix_cons.mpr
        ⟨rfl, ih ds hds (fun x hx => hfree x (List.mem_cons_of_mem _ hx))⟩

/-! ## Lemmas on the two loops -/

theorem cliLoop_stopped (windows : Bool) (code : Nat) (reads : List ReadOutcome)
    (s : CliState) (hs : s.world.IsStopped = true) :
    CliThread.loop windows code reads s = some s := by
  cases reads with
  | nil => rfl
  | cons r rest => simp [CliThread.loop, hs]

theorem cliLoop_running (windows : Bool) (code : Nat) (r : ReadOutcome)
    (rest : List ReadOutcome) (s : CliState) (hs : s.world.IsStopped = false)
    (hfit : overrunsCommandbuf windows r = false) :
    CliThread.loop windows code (r :: rest) s =
      CliThread.loop windows code rest (CliThread.pass windows code r s) := by
  simp [CliThread.loop, CliThread.iteration, hs, hfit]

theorem cliLoop_overrun (windows : Bool) (code : Nat) (r : ReadOutcome)
    (rest : List ReadOutcome) (s : CliState) (hs : s.world.IsStopped = false)
    (hover : overrunsCommandbuf windows r = true) :
    CliThread.loop windows code (r :: rest) s = none := by
  simp [CliThread.loop, CliThread.iteration, hs, hover]

theorem cliLoop_append (windows : Bool) (code : Nat) (pre post : List ReadOutcome)
    (s : CliState) :
    CliThread.loop windows code (pre ++ post) s =
      (CliThread.loop windows code pre s).bind (CliThread.loop windows code post) := by
  induction pre generalizing s with
  | nil => rfl
  | cons r pre ih =>
    by_cases hs : s.world.IsStopped = true
    · rw [cliLoop_stopped windows code (r :: pre) s hs, Option.some_bind,
        cliLoop_stopped windows code post s hs]
      exact cliLoop_stopped windows code _ s hs
    · have hs2 : s.world.IsStopped = false := by simpa using hs
      cases hfit : overrunsCommandbuf windows r with
      | true =>
        rw [List.cons_append, cliLoop_overrun windows code r _ s hs2 hfit,
          cliLoop_overrun windows code r _ s hs2 hfit]
        rfl
      | false =>
        rw [List.cons_append, cliLoop_running windows code r _ s hs2 hfit,
          cliLoop_running windows code r _ s hs2 hfit, ih]

theorem wideLength_nil : wideLength [] = 0 := rfl

/-- One pass of the console loop on a buffer that holds a line without NUL,
was converted, and is not an empty line at end of input, while nobody raises
the stop signal. -/
theorem cliPass_line (windows : Bool) (code : Nat) (r : ReadOutcome)
    (s : CliState) (l : CppString) (hline : r.line = some l) (hnul : NUL ∉ l)
    (hconv : windows = true → r.convOk = true) (hstop : r.stopRaised = false)
    (heof : r.eof = true → l ≠ []) :
    (CliThread.pass windows code r s).world = s.world ∧
    (CliThread.pass windows code r s).stopRequests = s.stopRequests ∧
    (CliThread.pass windows code r s).queue =
      s.queue ++ (if longestPrefixNoLineBreak l = [] then []
                  else [consoleTask (longestPrefixNoLineBreak l)]) ∧
    (CliThread.pass windows code r s).console.count ConsoleEvent.readCall =
      s.console.count ConsoleEvent.readCall + 1 := by
  obtain ⟨line, convOk, eof, stopRaised⟩ := r
  simp only at hline hconv hstop heof
  subst hline hstop
  have hgate : (windows && (some l : Option CppString).isSome && !convOk) = false := by
    cases windows with
    | false => rfl
    | true => simp [hconv rfl]
  have hw : ∀ w : World, w.raisedElsewhere false = w := by
    intro w; cases w; simp [World.raisedElsewhere]
  have hc : c_str l = l := c_str_eq_self l hnul
  have hcp : c_str (longestPrefixNoLineBreak l) = longestPrefixNoLineBreak l :=
    c_str_eq_self _ (fun h => hnul ((longestPrefixNoLineBreak_initial l).subset h))
  simp only [CliThread.pass, hgate, Bool.false_eq_true, if_false, Option.getD_some, hc]
  by_cases hl : l = []
  · subst hl
    have he : eof = false := by
      cases eof with
      | false => rfl
      | true => exact absurd rfl (heof rfl)
    cases windows <;>
      simp [he, CliThread.read, hw, longestPrefixNoLineBreak, List.count_append]
  · have hpre := find_first_of_erase l
    have hnil := longestPrefixNoLineBreak_eq_nil_iff l
    simp only [hl, false_or] at hnil
    simp only [ne_eq, hl, not_false_eq_true, if_true]
    cases hf : find_first_of l [CR, LF] with
    | none =>
      rw [hf] at hpre hnil
      simp only at hpre
      have hne : ¬ longestPrefixNoLineBreak l = [] := by simp [hnil]
      rw [← hpre] at hne ⊢
      cases windows <;>
        simp [CliThread.submit, CliThread.read, hw, consoleTask, hne, List.count_append, hc]
    | some i =>
      rw [hf] at hpre hnil
      simp only at hpre
      by_cases hi : i = 0
      · subst hi
        have hz : longestPrefixNoLineBreak l = [] := hnil.mpr rfl
        cases windows <;>
          simp [hz, CliThread.read, PrintCliPrefix, hw, List.count_append]
      · have hne : ¬ longestPrefixNoLineBreak l = [] := by
          intro h
          have := hnil.mp h
          simp at this
          exact hi this
        rw [← hpre] at hne hcp ⊢
        cases windows <;>
          simp [hi, CliThread.submit, CliThread.read, hw, consoleTask, hne,
            List.count_append, hcp]

/-- A pass whose command is empty or begins with CR or LF, without end of
input and with nobody raising the stop signal, queues nothing, calls
`StopNow` not at all and leaves the world as it is; the next read is made
with the prompt right before it, except on Windows for the empty command. -/
theorem cliPass_blank_line (windows : Bool) (code : Nat) (r : ReadOutcome) (s : CliState)
    (hrun : s.world.IsStopped = false)
    (hblank : c_str (r.line.getD []) = [] ∨
      ∃ c cs, c_str (r.line.getD []) = c :: cs ∧ (c = CR ∨ c = LF))
    (heof : r.eof = false) (hstop : r.stopRaised = false) :
    (CliThread.pass windows code r s).queue = s.queue ∧
    (CliThread.pass windows code r s).stopRequests = s.stopRequests ∧
    (CliThread.pass windows code r s).world = s.world ∧
    (CliThread.pass windows code r s).world.IsStopped = false ∧
    ((windows = true → c_str (r.line.getD []) ≠ []) →
      ∀ next, [ConsoleEvent.prompt, ConsoleEvent.readCall] <:+
        (CliThread.read windows next (CliThread.pass windows code r s)).console) := by
  have hw : ∀ w : World, w.raisedElsewhere false = w := by
    intro w; cases w; simp [World.raisedElsewhere]
  have hsuff : ∀ (xs : List ConsoleEvent),
      [ConsoleEvent.prompt, ConsoleEvent.readCall] <:+
        xs ++ [ConsoleEvent.prompt, ConsoleEvent.readCall, ConsoleEvent.prompt,
          ConsoleEvent.readCall] :=
    fun xs => ⟨xs ++ [ConsoleEvent.prompt, ConsoleEvent.readCall], by simp⟩
  have hsuff2 : ∀ (xs : List ConsoleEvent),
      [ConsoleEvent.prompt, ConsoleEvent.readCall] <:+
        xs ++ [ConsoleEvent.readCall, ConsoleEvent.prompt, ConsoleEvent.readCall] :=
    fun xs => ⟨xs ++ [ConsoleEvent.readCall], by simp⟩
  obtain ⟨line, convOk, eof, stopRaised⟩ := r
  simp only at hblank heof hstop
  subst heof hstop
  have hrun2 : s.world.m_stopEvent = false := hrun
  rcases hblank with hempty | ⟨c, cs, hcs, hc⟩
  · cases line with
    | none =>
      cases windows <;>
        simp [CliThread.pass, CliThread.read, hw, World.IsStopped, hrun2, hsuff, c_str]
    | some l =>
      simp only [Option.getD_some] at hempty
      cases windows <;> cases convOk <;>
        simp [CliThread.pass, CliThread.read, PrintCliPrefix, hw, World.IsStopped,
          hrun2, hsuff, hsuff2, hempty]
  · cases line with
    | none => simp [c_str] at hcs
    | some l =>
      simp only [Option.getD_some] at hcs
      have hz : find_first_of (c_str l) [CR, LF] = some 0 :=
        (find_first_of_zero_iff (c_str l)).mpr ⟨c, cs, hcs, hc⟩
      have hne : c_str l ≠ [] := by rw [hcs]; simp
      cases windows <;> cases convOk <;>
        simp [CliThread.pass, CliThread.read, PrintCliPrefix, hw, World.IsStopped,
          hrun2, hsuff, hsuff2, hz, hne]

/-- When a read yields no buffer and `feof(stdin)` is true, the pass calls
`World::StopNow` with the shutdown exit code, queues nothing, and the loop
returns at its next condition check, whatever input remains; the loop returns
a stopped state as it is. -/
theorem cliLoop_stops_on_feof (windows : Bool) (code : Nat) (r : ReadOutcome)
    (rest : List ReadOutcome) (s : CliState)
    (hrun : s.world.IsStopped = false) (hline : r.line = none) (heof : r.eof = true) :
    (CliThread.pass windows code r s).stopRequests = s.stopRequests ++ [code] ∧
    (CliThread.pass windows code r s).world = ⟨true, code⟩ ∧
    (CliThread.pass windows code r s).queue = s.queue ∧
    CliThread.loop windows code (r :: rest) s = some (CliThread.pass windows code r s) ∧
    (∀ reads t, t.world.IsStopped = true → CliThread.loop windows code reads t = some t) ∧
    (∀ pre post t t2, CliThread.loop windows code pre t = some t2 →
      t2.world.IsStopped = true →
      CliThread.loop windows code (pre ++ post) t = some t2) := by
  obtain ⟨line, convOk, eof, stopRaised⟩ := r
  simp only at hline heof
  subst hline heof
  have hit : (CliThread.pass windows code ⟨none, convOk, true, stopRaised⟩ s).world
      = ⟨true, code⟩ := by
    cases windows <;> simp [CliThread.pass, CliThread.read, World.StopNow, c_str]
  have hfit : overrunsCommandbuf windows ⟨none, convOk, true, stopRaised⟩ = false := by
    cases windows <;> simp [overrunsCommandbuf, wideLength_nil, commandbufLength]
  refine ⟨?_, hit, ?_, ?_, ?_, ?_⟩
  · cases windows <;> simp [CliThread.pass, CliThread.read, c_str]
  · cases windows <;> simp [CliThread.pass, CliThread.read, c_str]
  · rw [cliLoop_running windows code _ rest s hrun hfit]
    exact cliLoop_stopped windows code rest _ (by rw [hit]; rfl)
  · exact fun reads t ht => cliLoop_stopped windows code reads t ht
  · intro pre post t t2 hpre ht2
    rw [cliLoop_append, hpre, Option.some_bind]
    exact cliLoop_stopped windows code post _ ht2

/-- For reads that each yield a line without NUL that fits the buffer and is
converted, while the stop signal stays unset: the loop is defined, the tasks
it queues are, in order, the console tasks of the non-empty longest prefixes
free of CR and LF, every offered line is read, and the world is left as it
is. -/
theorem cliLoop_queue_sequence (windows : Bool) (code : Nat) (reads : List ReadOutcome)
    (s : CliState) (hrun : s.world.IsStopped = false)
    (hreads : ∀ r ∈ reads, ∃ l, r.line = some l ∧ NUL ∉ l ∧
      (windows = true → r.convOk = true ∧ wideLength l < commandbufLength) ∧
      r.stopRaised = false ∧ (r.eof = true → l ≠ [])) :
    ∃ s2, CliThread.loop windows code reads s = some s2 ∧
      s2.queue =
        s.queue ++ (((reads.map (fun r => r.line.getD [])).map longestPrefixNoLineBreak).filter
          (fun text => decide (text ≠ []))).map consoleTask ∧
      s2.console.count ConsoleEvent.readCall =
        s.console.count ConsoleEvent.readCall + reads.length ∧
      s2.world = s.world ∧ s2.stopRequests = s.stopRequests := by
  induction reads generalizing s with
  | nil => exact ⟨s, rfl, by simp, by simp, rfl, rfl⟩
  | cons r rest ih =>
    obtain ⟨l, hl, hnul, hwin, hstop, heof⟩ := hreads r (List.mem_cons_self _ _)
    have hfit : overrunsCommandbuf windows r = false := by
      cases windows with
      | false => rfl
      | true =>
        have := (hwin rfl).2
        simp [overrunsCommandbuf, hl, this]
    have hit := cliPass_line windows code r s l hl hnul (fun h => (hwin h).1) hstop heof
    obtain ⟨s2, hs2, hq, hcount, hworld, hreq⟩ :=
      ih (CliThread.pass windows code r s) (by rw [hit.1]; exact hrun)
        (fun x hx => hreads x (List.mem_cons_of_mem _ hx))
    refine ⟨s2, ?_, ?_, ?_, ?_, ?_⟩
    · rw [cliLoop_running windows code r rest s hrun hfit]; exact hs2
    · rw [hq, hit.2.2.1]
      by_cases hp : longestPrefixNoLineBreak l = []
      · simp [hl, hp]
      · simp [hl, hp]
    · rw [hcount, hit.2.2.2]
      simp [Nat.add_assoc, Nat.add_comm 1]
    · rw [hworld, hit.1]
    · rw [hreq, hit.2.1]

/-- The loop on the four lines of `demoReads`, on Windows: `help` and `info`
are queued, in that order. -/
theorem cliLoop_queue_sequence_demo :
    ∃ s2, CliThread.loop true 0 demoReads {} = some s2 ∧
      s2.queue = [consoleTask "help".toList, consoleTask "info".toList] := by
  obtain ⟨s2, hs2, hq, _⟩ := cliLoop_queue_sequence true 0 demoReads {} rfl (by
    intro r hr
    simp only [demoReads, List.mem_cons, List.mem_singleton, List.not_mem_nil, or_false] at hr
    rcases hr with rfl | rfl | rfl | rfl
    · exact ⟨_, rfl, by decide, fun _ => ⟨rfl, by decide⟩, rfl, by decide⟩
    · exact ⟨_, rfl, by decide, fun _ => ⟨rfl, by decide⟩, rfl, by decide⟩
    · exact ⟨_, rfl, by decide, fun _ => ⟨rfl, by decide⟩, rfl, by decide⟩
    · exact ⟨_, rfl, by decide, fun _ => ⟨rfl, by decide⟩, rfl, by decide⟩)
  exact ⟨s2, hs2, hq.trans (by decide)⟩

/-- Off Windows, reads that yield no buffer while `feof(stdin)` is false never
stop the loop: after any number of them no `StopNow` has been called, the
world is as before, nothing is queued and every read has been made. -/
theorem cliLoop_no_buffer_no_feof (code n : Nat) (s : CliState)
    (hrun : s.world.IsStopped = false) :
    ∃ s2, CliThread.loop false code (List.replicate n ⟨none, true, false, false⟩) s = some s2 ∧
      s2.world = s.world ∧ s2.stopRequests = s.stopRequests ∧ s2.queue = s.queue ∧
      s2.console.count ConsoleEvent.readCall = s.console.count ConsoleEvent.readCall + n := by
  induction n generalizing s with
  | zero => exact ⟨s, rfl, rfl, rfl, rfl, rfl⟩
  | succ n ih =>
    have hw : s.world.raisedElsewhere false = s.world := by
      cases h : s.world; simp [World.raisedElsewhere]
    have hpass : CliThread.pass false code ⟨none, true, false, false⟩ s =
        { s with console := s.console ++ [ConsoleEvent.prompt, ConsoleEvent.readCall] } := by
      simp [CliThread.pass, CliThread.read, c_str, hw]
    obtain ⟨s2, hs2, hworld, hreq, hq, hcount⟩ :=
      ih { s with console := s.console ++ [ConsoleEvent.prompt, ConsoleEvent.readCall] } hrun
    refine ⟨s2, ?_, hworld, hreq, hq, ?_⟩
    · rw [List.replicate_succ, cliLoop_running false code _ _ s hrun rfl, hpass]
      exact hs2
    · rw [hcount]
      simp [List.count_append, Nat.add_assoc, Nat.add_comm 1]

theorem soapLoop_stopped (accepts : List AcceptOutcome) (s : SoapThreadState)
    (hs : s.world.IsStopped = true) : ACSoapThread.loop accepts s = s := by
  cases accepts with
  | nil => rfl
  | cons a rest => simp [ACSoapThread.loop, hs]

theorem soapLoop_running (accepts : List AcceptOutcome) (s : SoapThreadState)
    (hs : s.world.IsStopped = false) :
    (ACSoapThread.loop accepts s).stopRequests = s.stopRequests ∧
    (ACSoapThread.loop accepts s).world.m_ExitCode = s.world.m_ExitCode ∧
    (ACSoapThread.loop accepts s).processed =
      s.processed ++ (passesUntilStop accepts).filterMap AcceptOutcome.socket ∧
    (ACSoapThread.loop accepts s).accepts = s.accepts + (passesUntilStop accepts).length := by
  induction accepts generalizing s with
  | nil => simp [ACSoapThread.loop, passesUntilStop]
  | cons a rest ih =>
    obtain ⟨socket, stopRaised⟩ := a
    cases stopRaised with
    | true =>
      cases socket with
      | none =>
        simp only [ACSoapThread.loop, hs, Bool.false_eq_true, if_false, passesUntilStop, if_true]
        rw [soapLoop_stopped rest
          { s with accepts := s.accepts + 1, world := s.world.raisedElsewhere true }
          (by simp [World.raisedElsewhere, World.IsStopped])]
        simp [World.raisedElsewhere]
      | some c =>
        simp only [ACSoapThread.loop, hs, Bool.false_eq_true, if_false, passesUntilStop, if_true]
        rw [soapLoop_stopped rest
          (process_message c
            { s with accepts := s.accepts + 1, world := s.world.raisedElsewhere true })
          (by simp [process_message, World.raisedElsewhere, World.IsStopped])]
        simp [World.raisedElsewhere, process_message]
    | false =>
      have hw : s.world.raisedElsewhere false = s.world := by
        cases h : s.world; simp [World.raisedElsewhere]
      cases socket with
      | none =>
        simp only [ACSoapThread.loop, hs, Bool.false_eq_true, if_false, passesUntilStop, hw]
        have := ih { s with accepts := s.accepts + 1 } hs
        simp only [this]
        simp [Nat.add_assoc, Nat.add_comm 1]
      | some c =>
        simp only [ACSoapThread.loop, hs, Bool.false_eq_true, if_false, passesUntilStop, hw]
        have := ih (process_message c { s with accepts := s.accepts + 1 })
          (by simpa [process_message] using hs)
        simp only [this]
        simp [process_message, Nat.add_assoc, Nat.add_comm 1]


/-! ## The console adapter -/

/-- C7, where the code departs from it: on Windows a read whose buffer begins
with NUL gives the empty command; with `feof(stdin)` false the pass queues
nothing and calls `StopNow` not at all, but the loop goes to the next read
without displaying the prompt (first statement: two reads in a row on the
console).  The neighbouring paths do display it: a buffer that begins with
LF on Windows (second statement) and an empty line off Windows (third
statement). -/
theorem cliThread_windows_empty_command_no_prompt :
    CliThread.loop true 0
        [⟨some [NUL, LF], true, false, false⟩, ⟨some ("help".toList ++ [LF]), true, false, false⟩]
        {} =
      some { console := [ConsoleEvent.readCall, ConsoleEvent.readCall],
             queue := [consoleTask "help".toList] } ∧
    CliThread.loop true 0
        [⟨some [LF], true, false, false⟩, ⟨some ("help".toList ++ [LF]), true, false, false⟩]
        {} =
      some { console := [ConsoleEvent.readCall, ConsoleEvent.prompt, ConsoleEvent.readCall],
             queue := [consoleTask "help".toList] } ∧
    CliThread.loop false 0
        [⟨some [], true, false, false⟩, ⟨some "help".toList, true, false, false⟩] {} =
      some { console := [ConsoleEvent.prompt, ConsoleEvent.readCall, ConsoleEvent.prompt,
                         ConsoleEvent.readCall],
             queue := [consoleTask "help".toList],
             history := ["help".toList] } := by
  decide

/-- C8, where the code departs from it: off Windows the line comes from
`readline`, which at end of input returns `nullptr` and leaves `feof(stdin)`
false.  However often that read is repeated, the loop calls `StopNow` not at
all, the stop signal stays unset, nothing is queued, and every one of the
reads is made: the loop does not exit. -/
theorem cliThread_readline_end_of_input_no_stop (code n : Nat) :
    ∃ s2, CliThread.loop false code (List.replicate n ⟨none, true, false, false⟩) {} = some s2 ∧
      s2.world.IsStopped = false ∧ s2.stopRequests = [] ∧ s2.queue = [] ∧
      s2.console.count ConsoleEvent.readCall = n := by
  obtain ⟨s2, hs2, hworld, hreq, hq, hcount⟩ := cliLoop_no_buffer_no_feof code n {} rfl
  refine ⟨s2, hs2, ?_, hreq, hq, ?_⟩
  · rw [hworld]; rfl
  · rw [hcount]; simp

set_option maxRecDepth 20000

/-- C10, where the code departs from it: on Windows a line of 256 wide
characters does not fit `wchar_t commandbuf[256]` with its terminating NUL,
and `fgetws`, told `sizeof(commandbuf)`, stores it all the same: the read
writes past the buffer and the behaviour of the loop is undefined, so no task
with the text of that line is guaranteed.  Off Windows the same line is
queued as the claim says. -/
theorem cliThread_windows_long_line_overrun :
    overrunsCommandbuf true ⟨some (List.replicate 256 'a'), true, false, false⟩ = true ∧
    CliThread.iteration true 0 ⟨some (List.replicate 256 'a'), true, false, false⟩ {} = none ∧
    CliThread.loop true 0 [⟨some (List.replicate 256 'a'), true, false, false⟩] {} = none ∧
    (CliThread.loop false 0 [⟨some (List.replicate 256 'a'), true, false, false⟩] {}).map
        CliState.queue = some [consoleTask (List.replicate 256 'a')] := by
  decide

/-! ## The SOAP listener -/

/-- C9. For every host and port: when `ACSoapThread` cannot bind its socket it
calls `World::StopNow` with the error exit code, once, and returns without
calling `soap_accept` and without processing any message; when the bind
succeeds `ACSoapThread` calls `StopNow` not at all and leaves the exit code
alone, it does nothing when the world is already stopped, and otherwise it
runs the passes up to the one during which the stop signal is raised and
hands to `process_message`, once each and in order, exactly the connections
accepted in those passes, the accept timeouts adding nothing. -/
theorem acSoapThread_bind (soap_bind : CppString → Nat → Bool) (code : Nat)
    (host : CppString) (port : Nat) (accepts : List AcceptOutcome) (s : SoapThreadState) :
    (soap_bind host port = false →
      (ACSoapThread soap_bind code host port accepts s).stopRequests =
        s.stopRequests ++ [code] ∧
      (ACSoapThread soap_bind code host port accepts s).world = ⟨true, code⟩ ∧
      (ACSoapThread soap_bind code host port accepts s).accepts = s.accepts ∧
      (ACSoapThread soap_bind code host port accepts s).processed = s.processed) ∧
    (soap_bind host port = true →
      (ACSoapThread soap_bind code host port accepts s).stopRequests = s.stopRequests ∧
      (ACSoapThread soap_bind code host port accepts s).world.m_ExitCode =
        s.world.m_ExitCode ∧
      (s.world.IsStopped = true → ACSoapThread soap_bind code host port accepts s = s) ∧
      (s.world.IsStopped = false →
        (ACSoapThread soap_bind code host port accepts s).processed =
          s.processed ++ (passesUntilStop accepts).filterMap AcceptOutcome.socket ∧
        (ACSoapThread soap_bind code host port accepts s).accepts =
          s.accepts + (passesUntilStop accepts).length)) := by
  constructor
  · intro hb
    simp [ACSoapThread, hb, World.StopNow]
  · intro hb
    have hdef : ACSoapThread soap_bind code host port accepts s = ACSoapThread.loop accepts s := by
      simp [ACSoapThread, hb]
    rw [hdef]
    by_cases hs : s.world.IsStopped = true
    · rw [soapLoop_stopped accepts s hs]
      simp [hs]
    · have hs2 : s.world.IsStopped = false := by simpa using hs
      have h := soapLoop_running accepts s hs2
      exact ⟨h.1, h.2.1, fun h3 => absurd h3 hs, fun _ => ⟨h.2.2.1, h.2.2.2⟩⟩

end ACore
